import Mathlib

/-!
Verification of the interaction-function layer of a knowledge-graph embedding
library (file src/pykeen/nn/modules.py of the repository under review).

The development embeds, as executable Lean definitions:

* the Python error outcomes relevant to the layer (PyErr, ResolveError);
* the keyword-argument handling performed by the forward method of each
  concrete interaction-function variant before the numeric kernel is invoked
  (forwardArgCheck); the numeric kernels themselves live in the separate
  module functional.py, which is not among the reviewed sources, so only the
  argument-handling control flow is embedded;
* the shape-factorization resolver used by the ConvE variant
  (calculateMissingShapeInformation) and the geometry resolution performed by
  the ConvE constructor (convEInitGeometry);
* a tensor model with the squeeze/unsqueeze helpers of the base class
  (Tensor, unsqueezeI, squeezeAt, removeDim) and the scoring entry points
  score_hrt, score_h, score_r, score_t built on them;
* the parameter-reset behaviour of the base class and of the ConvKB variant.

Rational numbers stand in for floating-point entries; integer arithmetic on
shapes is exact in both Python and the model.
-/

/-- Outcome of a Python-level failure inside the interaction-function layer.
Constructors record which raise statement of modules.py they model:
unexpectedKwargs is the ValueError of InteractionFunction._check_for_empty_kwargs,
duplicateDims is the ValueError of InteractionFunction._remove_dim,
typeError is the TypeError of ConvEInteractionFunction.forward for a missing
t_bias keyword, keyError is the KeyError of dict.pop on a missing key,
nameError is the NameError raised when a function body reads a name that is
not defined in any enclosing scope, and assertionError is a failed assert. -/
inductive PyErr where
  | unexpectedKwargs
  | duplicateDims
  | typeError
  | keyError
  | nameError
  | assertionError
deriving DecidableEq

/-- InteractionFunction._check_for_empty_kwargs: raises ValueError when any
keyword argument is left over. Keyword arguments are modelled by their key
list; the associated values never influence the checked control flow. -/
def checkForEmptyKwargs (kwargs : List String) : Except PyErr Unit :=
  if kwargs.length > 0 then Except.error PyErr.unexpectedKwargs else Except.ok ()

/-- Python dict.pop with a required key: returns the remaining keys, or
raises KeyError when the key is absent. -/
def popKey (kwargs : List String) (k : String) : Except PyErr (List String) :=
  if k ∈ kwargs then Except.ok (kwargs.erase k) else Except.error PyErr.keyError

/-- The concrete interaction-function variants of modules.py whose forward
body is present in the reviewed sources. The stateless constructor covers the
classes produced by _build_module_from_stateless (ComplEx, DistMult, RotatE,
HolE, RESCAL). NTN is omitted: its forward body lies beyond the end of the
reviewed file. -/
inductive Variant where
  | stateless
  | transE
  | convE
  | convKB
  | ermlp
  | ermlpe
  | transR
  | proje
  | structuredEmbedding
  | tucker
  | unstructuredModel
  | transD
deriving DecidableEq

/-- Keyword-argument handling performed by the forward method of each variant
before its numeric kernel is reached, transcribed clause by clause from
modules.py: most variants call _check_for_empty_kwargs on the whole mapping;
ConvE first tests for the t_bias key (raising TypeError when absent), pops it
and then checks; TransR pops m_r and then checks; TransD pops h_p, r_p and
t_p but never calls the check; ConvKB and StructuredEmbedding ignore the
mapping entirely. An ok result means control reaches the kernel call. -/
def forwardArgCheck : Variant → List String → Except PyErr Unit
  | Variant.stateless, ks => checkForEmptyKwargs ks
  | Variant.transE, ks => checkForEmptyKwargs ks
  | Variant.convE, ks =>
      if ("t_bias") ∈ ks then checkForEmptyKwargs (ks.erase ("t_bias"))
      else Except.error PyErr.typeError
  | Variant.convKB, _ => Except.ok ()
  | Variant.ermlp, ks => checkForEmptyKwargs ks
  | Variant.ermlpe, ks => checkForEmptyKwargs ks
  | Variant.transR, ks => do
      let ks1 ← popKey ks ("m_r")
      checkForEmptyKwargs ks1
  | Variant.proje, ks => checkForEmptyKwargs ks
  | Variant.structuredEmbedding, _ => Except.ok ()
  | Variant.tucker, ks => checkForEmptyKwargs ks
  | Variant.unstructuredModel, ks => checkForEmptyKwargs ks
  | Variant.transD, ks => do
      let ks1 ← popKey ks ("h_p")
      let ks2 ← popKey ks1 ("r_p")
      let _ ← popKey ks2 ("t_p")
      Except.ok ()

/-- Failure outcomes of _calculate_missing_shape_information and of the ConvE
constructor: assertionError models the bare assert on the number of unset
factors, emptyMaxError the ValueError of the built-in max on an empty
sequence, zeroDivisionError an integer division by zero, factorizationError
the ValueError naming the original argument triple and the target dimension,
typeErrorNone an arithmetic operation on None, and geometryError the
redundant product re-check inside the ConvE constructor. -/
inductive ResolveError where
  | assertionError
  | emptyMaxError
  | zeroDivisionError
  | factorizationError (original : Option Nat × Option Nat × Option Nat) (dim : Nat)
  | typeErrorNone
  | geometryError
deriving DecidableEq

/-- Left fold computing the maximum of a list against an accumulator,
mirroring the Python built-in max on a nonempty sequence. -/
def listMaxAux : Nat → List Nat → Nat
  | acc, [] => acc
  | acc, x :: xs => listMaxAux (max acc x) xs

/-- Executable floor of the square root, used to model the expression
math.floor(math.sqrt(n)) of the source; proved equal to Nat.sqrt below. -/
def floorSqrt (n : Nat) : Nat :=
  listMaxAux 0 ((List.range (n + 1)).filter (fun k => k * k ≤ n))

/-- Python built-in max over a sequence: ValueError on an empty sequence. -/
def pyMax : List Nat → Except ResolveError Nat
  | [] => Except.error ResolveError.emptyMaxError
  | x :: xs => Except.ok (listMaxAux x xs)

/-- Python floor division, raising ZeroDivisionError on a zero divisor. -/
def floordiv (a b : Nat) : Except ResolveError Nat :=
  if b = 0 then Except.error ResolveError.zeroDivisionError else Except.ok (a / b)

/-- Body of _calculate_missing_shape_information up to but excluding the final
product check, transcribed from modules.py: when all three factors are unset,
input channels become 1, the height becomes the largest divisor of the
embedding dimension in the range from 1 to the integer square root, and the
width the corresponding cofactor; when the channels are unset and a spatial
factor is also unset, channels default to 1; afterwards the bare assert
requires at most one factor to remain unset (its failure is the
assertionError outcome) and the single missing factor, if any, is filled by
floor division. The floor of the floating square root in the source is
modelled by floorSqrt, which agrees with it on every realistic dimension. -/
def completeFactors (dim : Nat) (ic0 w0 h0 : Option Nat) :
    Except ResolveError (Nat × Nat × Nat) := do
  let (ic1, w1, h1) ←
    if ic0.isNone && w0.isNone && h0.isNone then do
      let rs := floorSqrt dim
      let hgt ← pyMax ((List.range' 1 rs).filter (fun f => dim % f == 0))
      Except.ok ((some 1 : Option Nat), some (dim / hgt), some hgt)
    else Except.ok (ic0, w0, h0)
  let ic2 := if ic1.isNone && (w1.isNone || h1.isNone) then some 1 else ic1
  match ic2, w1, h1 with
  | some c, some w, some h => Except.ok (c, w, h)
  | some c, some w, none => do
      let h ← floordiv dim (w * c)
      Except.ok (c, w, h)
  | some c, none, some h => do
      let w ← floordiv dim (h * c)
      Except.ok (c, w, h)
  | none, some w, some h => do
      let c ← floordiv dim (w * h)
      Except.ok (c, w, h)
  | _, _, _ => Except.error ResolveError.assertionError

/-- The shape-factorization resolver _calculate_missing_shape_information:
completes the factors and raises the factorization ValueError, naming the
original input triple and the target dimension, when the completed product
differs from the embedding dimension. Returns the triple in source order:
input channels, width, height. -/
def calculateMissingShapeInformation (dim : Nat) (ic w h : Option Nat) :
    Except ResolveError (Nat × Nat × Nat) := do
  let (c, wi, he) ← completeFactors dim ic w h
  if c * wi * he = dim then Except.ok (c, wi, he)
  else Except.error (ResolveError.factorizationError (ic, w, h) dim)

/-- Geometry stored by a successfully constructed ConvE interaction
function. -/
structure ConvEGeometry where
  embeddingDim : Nat
  inputChannels : Nat
  embeddingHeight : Nat
  embeddingWidth : Nat
deriving DecidableEq

/-- Geometry resolution performed by the ConvE constructor: when the
embedding dimension argument is None it is recomputed as the product of the
three factors (a TypeError when any of them is also None), then the resolver
runs and its result is stored, and finally the constructor re-checks the
product, raising ValueError on mismatch. -/
def convEInitGeometry (inputChannels embeddingHeight embeddingWidth : Option Nat)
    (embeddingDim : Option Nat) : Except ResolveError ConvEGeometry := do
  let dim ←
    match embeddingDim with
    | some d => Except.ok d
    | none =>
      match inputChannels, embeddingWidth, embeddingHeight with
      | some c, some w, some h => Except.ok (c * w * h)
      | _, _, _ => Except.error ResolveError.typeErrorNone
  let (c, w, h) ← calculateMissingShapeInformation dim inputChannels embeddingWidth embeddingHeight
  if c * h * w = dim then
    Except.ok { embeddingDim := dim, inputChannels := c, embeddingHeight := h, embeddingWidth := w }
  else Except.error ResolveError.geometryError

instance {ε α : Type} [DecidableEq ε] [DecidableEq α] : DecidableEq (Except ε α) :=
  fun x y =>
    match x, y with
    | Except.ok a, Except.ok b =>
        if h : a = b then Decidable.isTrue (by rw [h])
        else Decidable.isFalse (by intro hc; cases hc; exact h rfl)
    | Except.error a, Except.error b =>
        if h : a = b then Decidable.isTrue (by rw [h])
        else Decidable.isFalse (by intro hc; cases hc; exact h rfl)
    | Except.ok _, Except.error _ => Decidable.isFalse (by intro hc; cases hc)
    | Except.error _, Except.ok _ => Decidable.isFalse (by intro hc; cases hc)

/-- Dense tensor model: a shape together with the entry at each multi-index.
Indices outside the shape are irrelevant to every statement below. Rational
entries stand in for the floating-point entries of the source. -/
structure Tensor where
  shape : List Nat
  data : List Nat → Rat

/-- Dimension normalization of torch.unsqueeze: a negative axis counts from
the end, with rank plus one insertion positions available. -/
def normUnsqueezeDim (rank : Nat) (d : Int) : Nat :=
  (if d < 0 then d + rank + 1 else d).toNat

/-- The torch unsqueeze operation underlying InteractionFunction._add_dim:
inserts a singleton axis at the (normalized) position. -/
def unsqueezeI (x : Tensor) (d : Int) : Tensor :=
  { shape := x.shape.insertIdx (normUnsqueezeDim x.shape.length d) 1,
    data := fun idx => x.data (idx.eraseIdx (normUnsqueezeDim x.shape.length d)) }

/-- The torch squeeze operation at a fixed nonnegative position: removes the
axis when its extent is one and leaves the tensor unchanged otherwise. -/
def squeezeAt (x : Tensor) (d : Nat) : Tensor :=
  if x.shape[d]? = some 1 then
    { shape := x.shape.eraseIdx d, data := fun idx => x.data (idx.insertIdx d 0) }
  else x

/-- Dimension normalization of InteractionFunction._remove_dim: a negative
axis has the rank added once; the result may still fall outside the valid
range, which the later assert catches. -/
def normRemoveDim (rank : Nat) (d : Int) : Int :=
  if 0 ≤ d then d else rank + d

/-- Insertion step of a descending insertion sort on integers. -/
def insertDesc (d : Int) : List Int → List Int
  | [] => [d]
  | x :: xs => if x ≤ d then d :: x :: xs else x :: insertDesc d xs

/-- Descending sort, modelling the Python call sorted(dims, reverse=True). -/
def sortDesc (l : List Int) : List Int := l.foldr insertDesc []

/-- Sequential squeeze over a list of positions, left to right. -/
def foldSqueeze (x : Tensor) (ns : List Nat) : Tensor := ns.foldl squeezeAt x

/-- InteractionFunction._remove_dim: normalizes the requested axes, raises
ValueError on a duplicate among the normalized axes, asserts that every axis
is in range, and then squeezes the axes in descending order. -/
def removeDim (x : Tensor) (dims : List Int) : Except PyErr Tensor :=
  let nd := dims.map (normRemoveDim x.shape.length)
  if nd.Nodup then
    if nd.all (fun d => 0 ≤ d ∧ d < (x.shape.length : Int)) then
      Except.ok (foldSqueeze x ((sortDesc nd).map Int.toNat))
    else Except.error PyErr.assertionError
  else Except.error PyErr.duplicateDims

/-- Modelled from the spec: the named-axis shape check check_shapes of the
utilities module, which is not among the reviewed sources. Every tensor must
have one axis per letter of its specification string, and any two axes
carrying the same letter must agree in size; violation of the named-axis
contract fails before any computation proceeds. -/
def checkShapes (specs : List (Tensor × List Char)) : Bool :=
  specs.all (fun p => p.1.shape.length = p.2.length) &&
  (let cs := (specs.map (fun p => p.2.zip p.1.shape)).flatten
   cs.all (fun c => cs.all (fun c2 => c.1 ≠ c2.1 || c.2 = c2.2)))

/-- InteractionFunction.score_hrt: asserts the shape contract, unsqueezes the
candidate axis (dimension one) on all three inputs, invokes forward with no
keyword arguments, removes the three broadcast axes and appends a trailing
singleton axis. The forward of the concrete variant is a parameter. -/
def score_hrt (fwd : Tensor → Tensor → Tensor → Except PyErr Tensor)
    (h r t : Tensor) : Except PyErr Tensor :=
  if checkShapes [(h, ['b', 'e']), (r, ['b', 'r']), (t, ['b', 'e'])] then do
    let scores ← fwd (unsqueezeI h 1) (unsqueezeI r 1) (unsqueezeI t 1)
    let squeezed ← removeDim scores [1, 2, 3]
    Except.ok (unsqueezeI squeezed (-1))
  else Except.error PyErr.assertionError

/-- InteractionFunction.score_h: asserts the shape contract and then
evaluates the expression self(h=h, r=r, t=t, **kwargs); the method signature
declares no kwargs parameter and no such local or global name exists, so the
evaluation of the name kwargs raises NameError on every call that passes the
shape check. The forward parameter is never reached. -/
def score_h (_fwd : Tensor → Tensor → Tensor → Except PyErr Tensor)
    (allEntities r t : Tensor) : Except PyErr Tensor :=
  if checkShapes [(allEntities, ['n', 'e']), (r, ['b', 'r']), (t, ['b', 'e'])] then
    Except.error PyErr.nameError
  else Except.error PyErr.assertionError

/-- InteractionFunction.score_r: same undefined-name failure as score_h. -/
def score_r (_fwd : Tensor → Tensor → Tensor → Except PyErr Tensor)
    (h allRelations t : Tensor) : Except PyErr Tensor :=
  if checkShapes [(allRelations, ['n', 'r']), (h, ['b', 'e']), (t, ['b', 'e'])] then
    Except.error PyErr.nameError
  else Except.error PyErr.assertionError

/-- InteractionFunction.score_t: same undefined-name failure as score_h. -/
def score_t (_fwd : Tensor → Tensor → Tensor → Except PyErr Tensor)
    (h r allEntities : Tensor) : Except PyErr Tensor :=
  if checkShapes [(allEntities, ['n', 'e']), (r, ['b', 'r']), (h, ['b', 'e'])] then
    Except.error PyErr.nameError
  else Except.error PyErr.assertionError

/-- Sample rank-two tensor used to evaluate the scoring entry points at a
shape-correct input. -/
def sample2x2 : Tensor := { shape := [2, 2], data := fun _ => 0 }

/-- Sample rank-two tensor whose second axis is not a singleton, used to
exercise the squeeze behaviour of _remove_dim. -/
def sample2x3 : Tensor := { shape := [2, 3], data := fun _ => 0 }

/-- The ConvE forward as reached from score_hrt: score_hrt passes no keyword
arguments, so the t_bias presence test fails before the numeric kernel in
functional.py is reached; the map continuation stands for that never-reached
kernel call. -/
def convEForwardFromScoreHRT : Tensor → Tensor → Tensor → Except PyErr Tensor :=
  fun h _ _ => (forwardArgCheck Variant.convE []).map (fun _ => h)

/-- Specification-side shape of a squeeze request: the axes of the input
shape whose index is requested and whose extent is one are dropped, all other
axes are kept; the first argument is the running index of the head of the
shape list. -/
def dropSingletonAux (ds : List Nat) : Nat → List Nat → List Nat
  | _, [] => []
  | i, s :: rest =>
      if i ∈ ds ∧ s = 1 then dropSingletonAux ds (i + 1) rest
      else s :: dropSingletonAux ds (i + 1) rest

/-- Shape obtained by removing the requested singleton axes. -/
def dropSingleton (shape : List Nat) (ds : List Nat) : List Nat :=
  dropSingletonAux ds 0 shape

/-- Parameter tensor of a sub-module, abstracted to a shape with flat data. -/
structure Param where
  shape : List Nat
  data : Nat → Rat

/-- An owned sub-module as seen by the default reset loop: its parameter
blob, and its own reset routine when it exposes one. -/
structure SubModule where
  ownReset : Option (Param → Param)
  param : Param

/-- InteractionFunction.reset_parameters: iterates over self.modules(),
skips self, and invokes reset_parameters on every owned sub-module that
exposes it, leaving all other state untouched. -/
def reset_parameters (subs : List SubModule) : List SubModule :=
  subs.map fun m =>
    match m.ownReset with
    | some f => { m with param := f m.param }
    | none => m

/-- Sub-module list of a class produced by _build_module_from_stateless: the
class defines no attributes, so the loop of reset_parameters has nothing to
visit. -/
def statelessSubModules : List SubModule := []

/-- A single sub-module whose own reset routine is the identity, used to
instantiate the reset theorems at a concrete input. -/
def idResetSub : SubModule :=
  { ownReset := some (fun p => p), param := { shape := [3], data := fun _ => 0 } }

/-- Parameters of ConvKBInteractionFunction: the convolution kernel has
kernel size one by three, so each filter is a triple; the convolution bias
has one entry per filter; the final linear layer maps to one output. -/
structure ConvKBParams where
  convWeight : List (Rat × Rat × Rat)
  convBias : List Rat
  linearWeight : List Rat
  linearBias : List Rat

/-- ConvKBInteractionFunction.reset_parameters: xavier-uniform on the final
linear weight, modelled as drawing fresh values from the random stream while
preserving the shape; zeros on the linear bias; the constant 0.1 on the first
two positions and -0.1 on the third position of every convolution filter;
zeros on the convolution bias. -/
def convKBResetParameters (fresh : Nat → Rat) (p : ConvKBParams) : ConvKBParams :=
  { convWeight := p.convWeight.map (fun _ => (1/10, 1/10, -1/10)),
    convBias := p.convBias.map (fun _ => 0),
    linearWeight := p.linearWeight.mapIdx (fun i _ => fresh i),
    linearBias := p.linearBias.map (fun _ => 0) }

/-- Sample stand-in for the own reset routine that the convolution sub-module
of ConvKB exposes (torch reinitializes the whole kernel from the random
stream; the exact routine is external to the reviewed sources, so the
comparison theorem instantiates it with a concrete routine). -/
def sampleConvOwnReset : List (Rat × Rat × Rat) → List (Rat × Rat × Rat) :=
  fun ws => ws.map (fun _ => (2, 2, 2))

/-- Concrete ConvKB parameter state with one filter. -/
def convKBSampleParams : ConvKBParams :=
  { convWeight := [(0, 0, 0)], convBias := [0], linearWeight := [0], linearBias := [0] }

/-- Sample score tensor of shape batch two with three singleton candidate
axes, as produced by a forward call inside score_hrt. -/
def sample4cand : Tensor := { shape := [2, 1, 1, 1], data := fun _ => 0 }

/-- Sample rank-two tensor whose second axis is a singleton. -/
def sample2x1 : Tensor := { shape := [2, 1], data := fun _ => 0 }

section ListMaxLemmas

theorem le_listMaxAux_acc (acc : Nat) (xs : List Nat) : acc ≤ listMaxAux acc xs := by
  induction xs generalizing acc with
  | nil => simp [listMaxAux]
  | cons x xs ih =>
      calc acc ≤ max acc x := Nat.le_max_left acc x
        _ ≤ listMaxAux (max acc x) xs := ih (max acc x)

theorem le_listMaxAux_of_mem {y : Nat} {xs : List Nat} (acc : Nat) (hy : y ∈ xs) :
    y ≤ listMaxAux acc xs := by
  induction xs generalizing acc with
  | nil => cases hy
  | cons x xs ih =>
      cases hy with
      | head =>
          calc y ≤ max acc y := Nat.le_max_right acc y
            _ ≤ listMaxAux (max acc y) xs := le_listMaxAux_acc _ xs
      | tail _ h => exact ih (max acc x) h

theorem listMaxAux_mem (acc : Nat) (xs : List Nat) :
    listMaxAux acc xs = acc ∨ listMaxAux acc xs ∈ xs := by
  induction xs generalizing acc with
  | nil => left; rfl
  | cons x xs ih =>
      rcases ih (max acc x) with h | h
      · rcases Nat.le_total acc x with hax | hxa
        · right
          rw [listMaxAux, h, Nat.max_eq_right hax]
          exact List.mem_cons_self x xs
        · left
          rw [listMaxAux, h, Nat.max_eq_left hxa]
      · right
        exact List.mem_cons_of_mem x h

theorem mem_floorSqrt_list (n k : Nat) :
    k ∈ (List.range (n + 1)).filter (fun k => k * k ≤ n) ↔ k ≤ n ∧ k * k ≤ n := by
  simp only [List.mem_filter, List.mem_range, decide_eq_true_eq]
  omega

theorem floorSqrt_eq_sqrt (n : Nat) : floorSqrt n = Nat.sqrt n := by
  apply Nat.le_antisymm
  · rcases listMaxAux_mem 0 ((List.range (n + 1)).filter (fun k => k * k ≤ n)) with h | h
    · rw [floorSqrt, h]
      exact Nat.zero_le _
    · have hk := (mem_floorSqrt_list n (floorSqrt n)).1 (by rw [floorSqrt]; exact h)
      exact Nat.le_sqrt.2 hk.2
  · apply le_listMaxAux_of_mem 0
    rw [mem_floorSqrt_list]
    exact ⟨Nat.sqrt_le_self n, Nat.sqrt_le n⟩

end ListMaxLemmas

theorem checkForEmptyKwargs_err {ks : List String} (h : ks ≠ []) :
    checkForEmptyKwargs ks = Except.error PyErr.unexpectedKwargs := by
  unfold checkForEmptyKwargs
  rw [if_pos (List.length_pos.mpr h)]

theorem resolver_all_unset_computation (dim x : Nat) (xs : List Nat)
    (hxs : (List.range' 1 (floorSqrt dim)).filter (fun f => dim % f == 0) = x :: xs)
    (hdvd : listMaxAux x xs ∣ dim) :
    calculateMissingShapeInformation dim none none none =
      Except.ok (1, dim / listMaxAux x xs, listMaxAux x xs) := by
  have hprod : 1 * (dim / listMaxAux x xs) * listMaxAux x xs = dim := by
    rw [one_mul, Nat.div_mul_cancel hdvd]
  unfold calculateMissingShapeInformation completeFactors
  simp only [Option.isNone_none, Bool.and_self, if_true, Bind.bind, Except.bind]
  rw [hxs]
  simp only [pyMax, Option.isNone_some, Bool.false_and, Bool.false_eq_true, if_false, hprod,
    if_true]

theorem dropSingletonAux_of_lt (shape : List Nat) :
    ∀ (ds : List Nat) (i : Nat), (∀ m ∈ ds, m < i) → dropSingletonAux ds i shape = shape := by
  induction shape with
  | nil => intro ds i _; rfl
  | cons s rest ih =>
      intro ds i hlt
      have hni : i ∉ ds := fun hmem => Nat.lt_irrefl i (hlt i hmem)
      rw [dropSingletonAux, if_neg (fun hc => hni hc.1)]
      rw [ih ds (i + 1) (fun m hm => Nat.lt_trans (hlt m hm) (Nat.lt_succ_self i))]

theorem dropSingletonAux_cons_lt (shape : List Nat) :
    ∀ (ds : List Nat) (j i : Nat), j < i →
      dropSingletonAux (j :: ds) i shape = dropSingletonAux ds i shape := by
  induction shape with
  | nil => intro ds j i _; rfl
  | cons s rest ih =>
      intro ds j i hj
      have hmem : i ∈ j :: ds ↔ i ∈ ds := by
        constructor
        · intro hm
          cases hm with
          | head => exact absurd rfl (Nat.ne_of_gt hj)
          | tail _ hm2 => exact hm2
        · exact fun hm => List.mem_cons_of_mem j hm
      by_cases hc : i ∈ ds ∧ s = 1
      · rw [dropSingletonAux, if_pos ⟨hmem.mpr hc.1, hc.2⟩, dropSingletonAux, if_pos hc,
          ih ds j (i + 1) (Nat.lt_trans hj (Nat.lt_succ_self i))]
      · have hc2 : ¬ (i ∈ j :: ds ∧ s = 1) := fun hx => hc ⟨hmem.mp hx.1, hx.2⟩
        rw [dropSingletonAux, if_neg hc2, dropSingletonAux, if_neg hc,
          ih ds j (i + 1) (Nat.lt_trans hj (Nat.lt_succ_self i))]

theorem dropSingletonAux_congr (shape : List Nat) :
    ∀ (ds ds2 : List Nat) (i : Nat), (∀ j, j ∈ ds ↔ j ∈ ds2) →
      dropSingletonAux ds i shape = dropSingletonAux ds2 i shape := by
  induction shape with
  | nil => intro ds ds2 i _; rfl
  | cons s rest ih =>
      intro ds ds2 i hiff
      by_cases hc : i ∈ ds ∧ s = 1
      · rw [dropSingletonAux, if_pos hc, dropSingletonAux, if_pos ⟨(hiff i).mp hc.1, hc.2⟩,
          ih ds ds2 (i + 1) hiff]
      · have hc2 : ¬ (i ∈ ds2 ∧ s = 1) := fun hx => hc ⟨(hiff i).mpr hx.1, hx.2⟩
        rw [dropSingletonAux, if_neg hc, dropSingletonAux, if_neg hc2,
          ih ds ds2 (i + 1) hiff]

theorem dropSingletonAux_erase (shape : List Nat) :
    ∀ (ds : List Nat) (i p : Nat), shape[p]? = some 1 → (∀ m ∈ ds, m < i + p) →
      dropSingletonAux ((i + p) :: ds) i shape = dropSingletonAux ds i (shape.eraseIdx p) := by
  induction shape with
  | nil => intro ds i p hp _; simp at hp
  | cons s rest ih =>
      intro ds i p hp hlt
      cases p with
      | zero =>
          simp only [List.getElem?_cons_zero, Option.some.injEq] at hp
          subst hp
          simp only [Nat.add_zero] at hlt ⊢
          rw [dropSingletonAux, if_pos ⟨List.mem_cons_self i ds, rfl⟩]
          show dropSingletonAux (i :: ds) (i + 1) rest = dropSingletonAux ds i ((1 :: rest).eraseIdx 0)
          rw [show (1 :: rest).eraseIdx 0 = rest from rfl]
          rw [dropSingletonAux_cons_lt rest ds i (i + 1) (Nat.lt_succ_self i)]
          rw [dropSingletonAux_of_lt rest ds (i + 1)
            (fun m hm => Nat.lt_trans (hlt m hm) (Nat.lt_succ_self i))]
          rw [dropSingletonAux_of_lt rest ds i hlt]
      | succ q =>
          simp only [List.getElem?_cons_succ] at hp
          rw [show (s :: rest).eraseIdx (q + 1) = s :: rest.eraseIdx q from rfl]
          have harith : i + 1 + q = i + (q + 1) := by omega
          by_cases hc : i ∈ ds ∧ s = 1
          · rw [dropSingletonAux, if_pos ⟨List.mem_cons_of_mem _ hc.1, hc.2⟩,
              dropSingletonAux, if_pos hc]
            have := ih ds (i + 1) q hp (fun m hm => by have := hlt m hm; omega)
            rw [harith] at this
            exact this
          · have hc2 : ¬ (i ∈ (i + (q + 1)) :: ds ∧ s = 1) := by
              intro hx
              rcases hx with ⟨hm, hs⟩
              cases hm with
              | tail _ hm2 => exact hc ⟨hm2, hs⟩
            rw [dropSingletonAux, if_neg hc2, dropSingletonAux, if_neg hc]
            have := ih ds (i + 1) q hp (fun m hm => by have := hlt m hm; omega)
            rw [harith] at this
            rw [this]

theorem dropSingletonAux_skip (shape : List Nat) :
    ∀ (ds : List Nat) (i p : Nat), shape[p]? ≠ some 1 →
      dropSingletonAux ((i + p) :: ds) i shape = dropSingletonAux ds i shape := by
  induction shape with
  | nil => intro ds i p _; rfl
  | cons s rest ih =>
      intro ds i p hp
      cases p with
      | zero =>
          simp only [List.getElem?_cons_zero] at hp
          have hs1 : s ≠ 1 := fun h => hp (by rw [h])
          simp only [Nat.add_zero]
          rw [dropSingletonAux, if_neg (fun hx => hs1 hx.2),
            dropSingletonAux, if_neg (fun hx => hs1 hx.2)]
          rw [dropSingletonAux_cons_lt rest ds i (i + 1) (Nat.lt_succ_self i)]
      | succ q =>
          simp only [List.getElem?_cons_succ] at hp
          have harith : i + 1 + q = i + (q + 1) := by omega
          by_cases hc : i ∈ ds ∧ s = 1
          · have hm : i ∈ (i + (q + 1)) :: ds := List.mem_cons_of_mem _ hc.1
            rw [dropSingletonAux, if_pos ⟨hm, hc.2⟩, dropSingletonAux, if_pos hc]
            have := ih ds (i + 1) q hp
            rw [harith] at this
            exact this
          · have hc2 : ¬ (i ∈ (i + (q + 1)) :: ds ∧ s = 1) := by
              intro hx
              rcases hx with ⟨hm, hs⟩
              cases hm with
              | tail _ hm2 => exact hc ⟨hm2, hs⟩
            rw [dropSingletonAux, if_neg hc2, dropSingletonAux, if_neg hc]
            have := ih ds (i + 1) q hp
            rw [harith] at this
            rw [this]

theorem insertDesc_perm (d : Int) (l : List Int) : List.Perm (insertDesc d l) (d :: l) := by
  induction l with
  | nil => exact List.Perm.refl _
  | cons x xs ih =>
      rw [insertDesc]
      by_cases hc : x ≤ d
      · rw [if_pos hc]
      · rw [if_neg hc]
        exact List.Perm.trans (List.Perm.cons x ih) (List.Perm.swap d x xs)

theorem sortDesc_perm (l : List Int) : List.Perm (sortDesc l) l := by
  induction l with
  | nil => exact List.Perm.refl _
  | cons x xs ih =>
      rw [sortDesc, List.foldr_cons]
      exact List.Perm.trans (insertDesc_perm x (sortDesc xs)) (List.Perm.cons x ih)

theorem insertDesc_sorted (d : Int) (l : List Int)
    (hl : List.Pairwise (fun a b => b ≤ a) l) :
    List.Pairwise (fun a b => b ≤ a) (insertDesc d l) := by
  induction l with
  | nil => exact List.pairwise_singleton _ d
  | cons x xs ih =>
      rw [insertDesc]
      rcases List.pairwise_cons.mp hl with ⟨hx, hxs⟩
      by_cases hc : x ≤ d
      · rw [if_pos hc]
        refine List.pairwise_cons.mpr ⟨?_, hl⟩
        intro y hy
        cases hy with
        | head => exact hc
        | tail _ hy2 => exact le_trans (hx y hy2) hc
      · rw [if_neg hc]
        refine List.pairwise_cons.mpr ⟨?_, ih hxs⟩
        intro y hy
        have hy2 : y = d ∨ y ∈ xs := by
          have := (insertDesc_perm d xs).mem_iff.mp hy
          simpa using this
        rcases hy2 with rfl | hy3
        · exact le_of_lt (lt_of_not_le hc)
        · exact hx y hy3

theorem sortDesc_sorted (l : List Int) :
    List.Pairwise (fun a b => b ≤ a) (sortDesc l) := by
  induction l with
  | nil => exact List.Pairwise.nil
  | cons x xs ih =>
      rw [sortDesc, List.foldr_cons]
      exact insertDesc_sorted x (sortDesc xs) ih

theorem sortDesc_strict (l : List Int) (hl : l.Nodup) :
    List.Pairwise (fun a b => b < a) (sortDesc l) := by
  have hnd : (sortDesc l).Nodup := (sortDesc_perm l).nodup_iff.mpr hl
  have hge := sortDesc_sorted l
  have := List.Pairwise.and hge hnd
  exact this.imp (fun hab => lt_of_le_of_ne hab.1 (Ne.symm hab.2))

theorem foldSqueeze_shape (ns : List Nat) :
    ∀ x : Tensor, List.Pairwise (fun a b => b < a) ns → (∀ n ∈ ns, n < x.shape.length) →
      (foldSqueeze x ns).shape = dropSingleton x.shape ns := by
  induction ns with
  | nil =>
      intro x _ _
      rw [foldSqueeze, List.foldl_nil, dropSingleton,
        dropSingletonAux_of_lt x.shape [] 0 (by intro m hm; cases hm)]
  | cons n ns ih =>
      intro x hpw hbound
      rcases List.pairwise_cons.mp hpw with ⟨hn, hns⟩
      have hstep : foldSqueeze x (n :: ns) = foldSqueeze (squeezeAt x n) ns := rfl
      by_cases hval : x.shape[n]? = some 1
      · have hsq : (squeezeAt x n).shape = x.shape.eraseIdx n := by
          rw [squeezeAt, if_pos hval]
        have hlen : (x.shape.eraseIdx n).length = x.shape.length - 1 := by
          rw [List.length_eraseIdx]
          simp [hbound n (List.mem_cons_self n ns)]
        have hbound2 : ∀ m ∈ ns, m < (squeezeAt x n).shape.length := by
          intro m hm
          rw [hsq, hlen]
          have h1 : m < n := hn m hm
          have h2 : n < x.shape.length := hbound n (List.mem_cons_self n ns)
          omega
        rw [hstep, ih (squeezeAt x n) hns hbound2, hsq]
        rw [dropSingleton, dropSingleton]
        have := dropSingletonAux_erase x.shape ns 0 n (by simpa using hval)
          (by intro m hm; simpa using hn m hm)
        simpa using this.symm
      · have hsq : squeezeAt x n = x := by rw [squeezeAt, if_neg hval]
        rw [hstep, hsq, ih x hns (fun m hm => hbound m (List.mem_cons_of_mem n hm))]
        rw [dropSingleton, dropSingleton]
        have := dropSingletonAux_skip x.shape ns 0 n hval
        simpa using this.symm

/-- C1: the claim asserts that score_h, score_r and score_t return broadcast
score tensors of shape batch by number of candidates. The code cannot do so:
each of the three methods evaluates **kwargs in its forward call although its
signature declares no kwargs parameter (the docstrings still document one),
so every shape-correct call raises NameError before any scoring. This
theorem evaluates the three entry points at a shape-correct input. -/
theorem score_h_score_r_score_t_raise_nameError :
    score_h (fun h _ _ => Except.ok h) sample2x2 sample2x2 sample2x2 =
      Except.error PyErr.nameError ∧
    score_r (fun h _ _ => Except.ok h) sample2x2 sample2x2 sample2x2 =
      Except.error PyErr.nameError ∧
    score_t (fun h _ _ => Except.ok h) sample2x2 sample2x2 sample2x2 =
      Except.error PyErr.nameError :=
  ⟨rfl, rfl, rfl⟩

/-- C2 counterexample: the forward of ConvKB never invokes the shared
no-leftover-kwargs check, so a keyword argument it does not consume is
silently ignored instead of raising the unexpected-argument error. -/
theorem convKB_forward_accepts_unknown_kwargs :
    forwardArgCheck Variant.convKB (["unused_extra"]) = Except.ok () := rfl

/-- C2 amended: the variants that do invoke the shared check (the stateless
classes, TransE, ConvE after popping t_bias, ERMLP, ERMLPE, TransR after
popping m_r, ProjE, Tucker, UnstructuredModel) raise the unexpected-argument
ValueError on any leftover keyword; ConvKB and StructuredEmbedding ignore
keyword arguments entirely, and TransD pops its three projection arguments
but never checks for leftovers. -/
theorem unexpected_kwargs_enforcement_by_variant :
    (∀ ks : List String, ks ≠ [] →
        forwardArgCheck Variant.stateless ks = Except.error PyErr.unexpectedKwargs ∧
        forwardArgCheck Variant.transE ks = Except.error PyErr.unexpectedKwargs ∧
        forwardArgCheck Variant.ermlp ks = Except.error PyErr.unexpectedKwargs ∧
        forwardArgCheck Variant.ermlpe ks = Except.error PyErr.unexpectedKwargs ∧
        forwardArgCheck Variant.proje ks = Except.error PyErr.unexpectedKwargs ∧
        forwardArgCheck Variant.tucker ks = Except.error PyErr.unexpectedKwargs ∧
        forwardArgCheck Variant.unstructuredModel ks = Except.error PyErr.unexpectedKwargs) ∧
    (∀ ks : List String, ("t_bias") ∈ ks → ks.erase ("t_bias") ≠ [] →
        forwardArgCheck Variant.convE ks = Except.error PyErr.unexpectedKwargs) ∧
    (∀ ks : List String, ("m_r") ∈ ks → ks.erase ("m_r") ≠ [] →
        forwardArgCheck Variant.transR ks = Except.error PyErr.unexpectedKwargs) ∧
    (∀ ks : List String, forwardArgCheck Variant.convKB ks = Except.ok ()) ∧
    (∀ ks : List String, forwardArgCheck Variant.structuredEmbedding ks = Except.ok ()) ∧
    (forwardArgCheck Variant.transD (["h_p", "r_p", "t_p", "extra_one"]) = Except.ok ()) := by
  refine ⟨?_, ?_, ?_, ?_, ?_, ?_⟩
  · intro ks h
    exact ⟨checkForEmptyKwargs_err h, checkForEmptyKwargs_err h, checkForEmptyKwargs_err h,
      checkForEmptyKwargs_err h, checkForEmptyKwargs_err h, checkForEmptyKwargs_err h,
      checkForEmptyKwargs_err h⟩
  · intro ks hmem hne
    simp only [forwardArgCheck]
    rw [if_pos hmem]
    exact checkForEmptyKwargs_err hne
  · intro ks hmem hne
    simp only [forwardArgCheck, popKey]
    rw [if_pos hmem]
    simp only [Bind.bind, Except.bind]
    exact checkForEmptyKwargs_err hne
  · intro ks; rfl
  · intro ks; rfl
  · rfl

/-- C2 witness: the amended statement applied at a concrete leftover. -/
theorem unexpected_kwargs_enforcement_by_variant_witness :
    (["extra_one"] : List String) ≠ [] ∧
    forwardArgCheck Variant.transE (["extra_one"]) = Except.error PyErr.unexpectedKwargs :=
  ⟨by decide, (unexpected_kwargs_enforcement_by_variant.1 (["extra_one"]) (by decide)).2.1⟩

/-- C3 counterexample: the resolver called with embedding dimension seven,
two input channels and both spatial factors unset fails with the bare assert
on the number of unset factors, not with the factorization ValueError that
names the original input and the target dimension. -/
theorem resolver_two_unset_fails_with_assertion :
    calculateMissingShapeInformation 7 (some 2) none none =
      Except.error ResolveError.assertionError ∧
    calculateMissingShapeInformation 7 (some 2) none none ≠
      Except.error (ResolveError.factorizationError (some 2, none, none) 7) :=
  ⟨rfl, by decide⟩

/-- C3 amended: with more than one factor still unset after the defaulting
steps the resolver fails, but through the internal assertion (a bare
AssertionError); the factorization ValueError naming the original input and
the target dimension is raised exactly when the factors complete and the
product differs from the embedding dimension, as in the all-set case and in
the one-unset case with dimension seven. -/
theorem resolver_failure_modes :
    (calculateMissingShapeInformation 7 (some 2) none none =
        Except.error ResolveError.assertionError) ∧
    (∀ dim c wi he : Nat, c * wi * he ≠ dim →
        calculateMissingShapeInformation dim (some c) (some wi) (some he) =
          Except.error (ResolveError.factorizationError (some c, some wi, some he) dim)) ∧
    (calculateMissingShapeInformation 7 (some 2) (some 1) none =
        Except.error (ResolveError.factorizationError (some 2, some 1, none) 7)) := by
  refine ⟨rfl, ?_, rfl⟩
  intro dim c wi he hne
  unfold calculateMissingShapeInformation completeFactors
  simp [Bind.bind, Except.bind, hne]

/-- C3 witness: the product-mismatch clause applied at a concrete input. -/
theorem resolver_failure_modes_witness :
    1 * 1 * 1 ≠ 5 ∧
    calculateMissingShapeInformation 5 (some 1) (some 1) (some 1) =
      Except.error (ResolveError.factorizationError (some 1, some 1, some 1) 5) :=
  ⟨by decide, resolver_failure_modes.2.1 5 1 1 1 (by decide)⟩

/-- C4 counterexample: score_hrt passes no keyword arguments to forward, so
on the ConvE variant the mandatory t_bias argument is always missing and
score_hrt fails with TypeError instead of returning a score tensor of shape
batch by one. -/
theorem score_hrt_convE_missing_t_bias_fails :
    score_hrt convEForwardFromScoreHRT sample2x2 sample2x2 sample2x2 =
      Except.error PyErr.typeError := rfl

/-- C4 amended: whenever the forward of the variant, applied to the three
inputs with the singleton candidate axis inserted, returns a score tensor
obeying the broadcast shape contract (which excludes the variants whose
mandatory extra arguments score_hrt cannot forward), score_hrt returns a
tensor of shape batch by one whose entry at row i equals entry i, 0, 0, 0 of
that score tensor. -/
theorem score_hrt_agrees_with_forward
    (fwd : Tensor → Tensor → Tensor → Except PyErr Tensor) (h r t scores : Tensor)
    (b de dr : Nat)
    (hh : h.shape = [b, de]) (hr : r.shape = [b, dr]) (ht : t.shape = [b, de])
    (hfwd : fwd (unsqueezeI h 1) (unsqueezeI r 1) (unsqueezeI t 1) = Except.ok scores)
    (hs : scores.shape = [b, 1, 1, 1]) :
    ∃ out : Tensor, score_hrt fwd h r t = Except.ok out ∧ out.shape = [b, 1] ∧
      ∀ i : Nat, out.data [i, 0] = scores.data [i, 0, 0, 0] := by
  have hcs : checkShapes [(h, ['b', 'e']), (r, ['b', 'r']), (t, ['b', 'e'])] = true := by
    simp [checkShapes, hh, hr, ht]
  obtain ⟨ssh, sdat⟩ := scores
  change ssh = [b, 1, 1, 1] at hs
  subst hs
  have hcomp : score_hrt fwd h r t =
      Except.ok
        { shape := [b, 1],
          data := fun idx => sdat ((((idx.eraseIdx 1).insertIdx 1 0).insertIdx 2 0).insertIdx 3 0) } := by
    unfold score_hrt
    rw [if_pos hcs]
    simp only [Bind.bind, Except.bind, hfwd]
    rfl
  exact ⟨_, hcomp, rfl, fun i => rfl⟩

/-- C4 witness: the amended statement applied to a constant forward at a
batch of two exact triples. -/
theorem score_hrt_agrees_with_forward_witness :
    sample2x2.shape = [2, 2] ∧ sample4cand.shape = [2, 1, 1, 1] ∧
    (∃ out : Tensor,
      score_hrt (fun _ _ _ => Except.ok sample4cand) sample2x2 sample2x2 sample2x2 =
        Except.ok out ∧
      out.shape = [2, 1] ∧ ∀ i : Nat, out.data [i, 0] = sample4cand.data [i, 0, 0, 0]) :=
  ⟨rfl, rfl, score_hrt_agrees_with_forward (fun _ _ _ => Except.ok sample4cand)
    sample2x2 sample2x2 sample2x2 sample4cand 2 2 2 rfl rfl rfl rfl rfl⟩

/-- C5: with all three factors unset the resolver returns one input channel,
height equal to the largest divisor of the embedding dimension not exceeding
the floor of its square root, and width equal to the cofactor. -/
theorem resolver_all_unset_factorization (dim : Nat) (hdim : 0 < dim) :
    ∃ hgt : Nat,
      calculateMissingShapeInformation dim none none none = Except.ok (1, dim / hgt, hgt) ∧
      hgt ∣ dim ∧ hgt ≤ Nat.sqrt dim ∧
      ∀ d : Nat, d ∣ dim → d ≤ Nat.sqrt dim → d ≤ hgt := by
  have hmemL : ∀ k : Nat,
      k ∈ (List.range' 1 (floorSqrt dim)).filter (fun f => dim % f == 0) ↔
        (1 ≤ k ∧ k ≤ floorSqrt dim ∧ dim % k = 0) := by
    intro k
    simp only [List.mem_filter, List.mem_range'_1, beq_iff_eq]
    omega
  have h1L : 1 ∈ (List.range' 1 (floorSqrt dim)).filter (fun f => dim % f == 0) := by
    rw [hmemL]
    refine ⟨le_refl 1, ?_, Nat.mod_one dim⟩
    rw [floorSqrt_eq_sqrt]
    exact Nat.sqrt_pos.mpr hdim
  obtain ⟨x, xs, hxs⟩ :
      ∃ x xs, (List.range' 1 (floorSqrt dim)).filter (fun f => dim % f == 0) = x :: xs := by
    cases hLc : (List.range' 1 (floorSqrt dim)).filter (fun f => dim % f == 0) with
    | nil => rw [hLc] at h1L; cases h1L
    | cons a as => exact ⟨a, as, rfl⟩
  have hgtmem : listMaxAux x xs ∈
      (List.range' 1 (floorSqrt dim)).filter (fun f => dim % f == 0) := by
    rw [hxs]
    rcases listMaxAux_mem x xs with h | h
    · rw [h]; exact List.mem_cons_self _ _
    · exact List.mem_cons_of_mem _ h
  have hgtprop := (hmemL _).1 hgtmem
  have hdvd : listMaxAux x xs ∣ dim := Nat.dvd_of_mod_eq_zero hgtprop.2.2
  refine ⟨listMaxAux x xs, resolver_all_unset_computation dim x xs hxs hdvd, hdvd, ?_, ?_⟩
  · rw [← floorSqrt_eq_sqrt]
    exact hgtprop.2.1
  · intro d hd hdle
    have hd1 : 1 ≤ d := by
      rcases Nat.eq_zero_or_pos d with h0 | h1
      · subst h0
        rw [Nat.zero_dvd] at hd
        omega
      · exact h1
    have hdL : d ∈ (List.range' 1 (floorSqrt dim)).filter (fun f => dim % f == 0) := by
      rw [hmemL]
      refine ⟨hd1, ?_, ?_⟩
      · rw [floorSqrt_eq_sqrt]
        exact hdle
      · obtain ⟨k, rfl⟩ := hd
        exact Nat.mul_mod_right d k
    rw [hxs] at hdL
    cases hdL with
    | head => exact le_listMaxAux_acc _ xs
    | tail _ hmem => exact le_listMaxAux_of_mem x hmem

/-- C5 witness: the theorem at embedding dimension two hundred, together
with the concrete value of the resolved triple: one channel, width twenty,
height ten, the largest divisor of two hundred not exceeding fourteen. -/
theorem resolver_all_unset_factorization_witness :
    0 < 200 ∧
    (∃ hgt : Nat,
      calculateMissingShapeInformation 200 none none none = Except.ok (1, 200 / hgt, hgt) ∧
      hgt ∣ 200 ∧ hgt ≤ Nat.sqrt 200 ∧
      ∀ d : Nat, d ∣ 200 → d ≤ Nat.sqrt 200 → d ≤ hgt) ∧
    calculateMissingShapeInformation 200 none none none = Except.ok (1, 20, 10) :=
  ⟨by decide, resolver_all_unset_factorization 200 (by decide), by rfl⟩

/-- C6: every non-failing return of the resolver is a fully determined
triple whose product is exactly the embedding dimension, and every
successfully resolved ConvE constructor geometry satisfies input channels
times height times width equals the embedding dimension. -/
theorem resolver_product_invariant :
    (∀ (dim : Nat) (ic w h : Option Nat) (c wi he : Nat),
        calculateMissingShapeInformation dim ic w h = Except.ok (c, wi, he) →
        c * wi * he = dim) ∧
    (∀ (ic h w edim : Option Nat) (g : ConvEGeometry),
        convEInitGeometry ic h w edim = Except.ok g →
        g.inputChannels * g.embeddingHeight * g.embeddingWidth = g.embeddingDim) := by
  constructor
  · intro dim ic w h c wi he hok
    unfold calculateMissingShapeInformation at hok
    simp only [Bind.bind, Except.bind] at hok
    repeat' split at hok
    all_goals (try cases hok)
    all_goals assumption
  · intro ic h w edim g hok
    unfold convEInitGeometry at hok
    simp only [Bind.bind, Except.bind] at hok
    repeat' split at hok
    all_goals (try cases hok)
    all_goals assumption

/-- C6 witness: the invariant applied to a fully specified resolution. -/
theorem resolver_product_invariant_witness :
    calculateMissingShapeInformation 12 (some 2) (some 3) (some 2) = Except.ok (2, 3, 2) ∧
    2 * 3 * 2 = 12 :=
  ⟨by rfl, resolver_product_invariant.1 12 (some 2) (some 3) (some 2) 2 3 2 (by rfl)⟩

/-- C7: the forward of the ConvE variant raises TypeError when the t_bias
keyword argument is absent; the failure happens in the argument-handling
prologue, before the numeric kernel is invoked. -/
theorem convE_forward_requires_t_bias :
    ∀ ks : List String, ("t_bias") ∉ ks →
      forwardArgCheck Variant.convE ks = Except.error PyErr.typeError := by
  intro ks h
  simp [forwardArgCheck, h]

/-- C7 witness: the theorem at the empty keyword mapping. -/
theorem convE_forward_requires_t_bias_witness :
    ("t_bias") ∉ ([] : List String) ∧
    forwardArgCheck Variant.convE ([]) = Except.error PyErr.typeError :=
  ⟨by decide, convE_forward_requires_t_bias [] (by decide)⟩

/-- C8 counterexample: with the pairwise-distinct axis list containing only
axis one, the helper succeeds on a tensor of shape two by three but does not
remove the named axis, because torch squeeze is a no-op on an axis whose
extent is not one; the result is the unchanged tensor. -/
theorem removeDim_keeps_nonsingleton_axis :
    removeDim sample2x3 [1] = Except.ok sample2x3 ∧ sample2x3.shape = [2, 3] :=
  ⟨rfl, rfl⟩

/-- C8 amended: when the normalized axis list contains a duplicate the
helper raises the duplicate-dimensions ValueError; when the normalized axes
are pairwise distinct and in range it succeeds, and the result keeps every
axis except those of the named axes whose extent is one, which are
removed. -/
theorem removeDim_duplicate_and_squeeze :
    (∀ (x : Tensor) (dims : List Int),
        ¬ (dims.map (normRemoveDim x.shape.length)).Nodup →
        removeDim x dims = Except.error PyErr.duplicateDims) ∧
    (∀ (x : Tensor) (dims : List Int),
        (dims.map (normRemoveDim x.shape.length)).Nodup →
        (∀ d ∈ dims.map (normRemoveDim x.shape.length), 0 ≤ d ∧ d < (x.shape.length : Int)) →
        ∃ y : Tensor, removeDim x dims = Except.ok y ∧
          y.shape = dropSingleton x.shape
            ((dims.map (normRemoveDim x.shape.length)).map Int.toNat)) := by
  constructor
  · intro x dims hdup
    rw [removeDim]
    simp only [if_neg hdup]
  · intro x dims hnd hrange
    rw [removeDim]
    simp only [if_pos hnd]
    have hall : (dims.map (normRemoveDim x.shape.length)).all
        (fun d => decide (0 ≤ d ∧ d < (x.shape.length : Int))) = true := by
      rw [List.all_eq_true]
      intro d hd
      exact decide_eq_true (hrange d hd)
    rw [if_pos hall]
    refine ⟨_, rfl, ?_⟩
    set nd := dims.map (normRemoveDim x.shape.length) with hndeq
    have hperm := sortDesc_perm nd
    have hstrict : List.Pairwise (fun a b => b < a) (sortDesc nd) := sortDesc_strict nd hnd
    have hnonneg : ∀ d ∈ sortDesc nd, 0 ≤ d ∧ d < (x.shape.length : Int) := by
      intro d hd
      exact hrange d (hperm.mem_iff.mp hd)
    have hstrictN : List.Pairwise (fun a b => b < a) ((sortDesc nd).map Int.toNat) := by
      rw [List.pairwise_map]
      refine List.Pairwise.imp_of_mem ?_ hstrict
      intro a b ha hb hlt
      have hb0 := (hnonneg b hb).1
      omega
    have hboundN : ∀ n ∈ (sortDesc nd).map Int.toNat, n < x.shape.length := by
      intro n hn
      rcases List.mem_map.mp hn with ⟨d, hd, rfl⟩
      have := hnonneg d hd
      omega
    rw [foldSqueeze_shape _ x hstrictN hboundN]
    rw [dropSingleton, dropSingleton]
    apply dropSingletonAux_congr
    intro j
    constructor
    · intro hj
      rcases List.mem_map.mp hj with ⟨d, hd, rfl⟩
      exact List.mem_map.mpr ⟨d, hperm.mem_iff.mp hd, rfl⟩
    · intro hj
      rcases List.mem_map.mp hj with ⟨d, hd, rfl⟩
      exact List.mem_map.mpr ⟨d, hperm.mem_iff.mpr hd, rfl⟩

/-- C8 witness: the duplicate clause at a pair of axes that coincide after
normalization, and the squeeze clause at a tensor of shape two by one with
the singleton axis requested. -/
theorem removeDim_duplicate_and_squeeze_witness :
    (¬ (([0, -2] : List Int).map (normRemoveDim sample2x2.shape.length)).Nodup ∧
      removeDim sample2x2 [0, -2] = Except.error PyErr.duplicateDims) ∧
    ((([1] : List Int).map (normRemoveDim sample2x1.shape.length)).Nodup ∧
      (∀ d ∈ ([1] : List Int).map (normRemoveDim sample2x1.shape.length),
        0 ≤ d ∧ d < (sample2x1.shape.length : Int)) ∧
      ∃ y : Tensor, removeDim sample2x1 [1] = Except.ok y ∧
        y.shape = dropSingleton sample2x1.shape
          ((([1] : List Int).map (normRemoveDim sample2x1.shape.length)).map Int.toNat)) :=
  ⟨⟨by decide, removeDim_duplicate_and_squeeze.1 sample2x2 [0, -2] (by decide)⟩,
    by decide, by decide,
    removeDim_duplicate_and_squeeze.2 sample2x1 [1] (by decide) (by decide)⟩

/-- C9 counterexample: the reset of ConvKB overrides the inherited loop and
writes the fixed filter pattern directly, without invoking the reset routine
of its convolution sub-module; at a concrete state and a concrete sub-module
routine, the state produced by the override differs from the output of that
routine, so the override does not recurse into the sub-module reset. -/
theorem convKB_reset_ignores_submodule_reset :
    (convKBResetParameters (fun _ => 0) convKBSampleParams).convWeight =
      [(1/10, 1/10, -1/10)] ∧
    sampleConvOwnReset convKBSampleParams.convWeight = [(2, 2, 2)] ∧
    (convKBResetParameters (fun _ => 0) convKBSampleParams).convWeight ≠
      sampleConvOwnReset convKBSampleParams.convWeight := by
  refine ⟨rfl, rfl, ?_⟩
  norm_num [convKBResetParameters, convKBSampleParams, sampleConvOwnReset]

/-- C9 amended: the inherited reset_parameters is a no-op on the stateless
variants, which own no sub-modules; it applies the own reset routine of
every owned sub-module that exposes one and leaves the others untouched; and
when each exposed routine preserves the parameter shape, one and two
applications both leave all parameter shapes unchanged. Variants that
override the method (such as ConvKB) reinitialize their tensors directly
instead of recursing. -/
theorem reset_parameters_default_behaviour :
    (reset_parameters statelessSubModules = statelessSubModules) ∧
    (∀ (subs : List SubModule) (i : Nat) (m : SubModule) (f : Param → Param),
        subs[i]? = some m → m.ownReset = some f →
        (reset_parameters subs)[i]? = some { ownReset := some f, param := f m.param }) ∧
    (∀ (subs : List SubModule) (i : Nat) (m : SubModule),
        subs[i]? = some m → m.ownReset = none →
        (reset_parameters subs)[i]? = some m) ∧
    (∀ subs : List SubModule,
        (∀ m ∈ subs, ∀ f : Param → Param, m.ownReset = some f →
          ∀ q : Param, (f q).shape = q.shape) →
        (reset_parameters subs).map (fun m => m.param.shape) =
          subs.map (fun m => m.param.shape) ∧
        (reset_parameters (reset_parameters subs)).map (fun m => m.param.shape) =
          subs.map (fun m => m.param.shape)) := by
  have hsingle : ∀ subs : List SubModule,
      (∀ m ∈ subs, ∀ f : Param → Param, m.ownReset = some f →
        ∀ q : Param, (f q).shape = q.shape) →
      (reset_parameters subs).map (fun m => m.param.shape) =
        subs.map (fun m => m.param.shape) := by
    intro subs hyp
    rw [reset_parameters, List.map_map]
    apply List.map_congr_left
    intro m hm
    cases hmr : m.ownReset with
    | none => simp [Function.comp_def, hmr]
    | some f => simp [Function.comp_def, hmr, hyp m hm f hmr m.param]
  have hpreserve : ∀ subs : List SubModule,
      (∀ m ∈ subs, ∀ f : Param → Param, m.ownReset = some f →
        ∀ q : Param, (f q).shape = q.shape) →
      (∀ m2 ∈ reset_parameters subs, ∀ f : Param → Param, m2.ownReset = some f →
        ∀ q : Param, (f q).shape = q.shape) := by
    intro subs hyp m2 hm2 f hf q
    rw [reset_parameters] at hm2
    rcases List.mem_map.mp hm2 with ⟨m, hm, rfl⟩
    cases hmr : m.ownReset with
    | none =>
        simp only [hmr] at hf
        exact absurd hf (by simp)
    | some f2 =>
        simp only [hmr] at hf
        have : f2 = f := by
          have := hf
          simp at this
          exact this
        subst this
        exact hyp m hm f2 hmr q
  refine ⟨rfl, ?_, ?_, ?_⟩
  · intro subs i m f h1 h2
    obtain ⟨mr, mp⟩ := m
    simp only at h2
    subst h2
    simp [reset_parameters, List.getElem?_map, h1]
  · intro subs i m h1 h2
    obtain ⟨mr, mp⟩ := m
    simp only at h2
    subst h2
    simp [reset_parameters, List.getElem?_map, h1]
  · intro subs hyp
    refine ⟨hsingle subs hyp, ?_⟩
    rw [hsingle (reset_parameters subs) (hpreserve subs hyp), hsingle subs hyp]

/-- C9 witness: the sub-module clause and the shape clause applied to a
single sub-module whose own reset routine is the identity. -/
theorem reset_parameters_default_behaviour_witness :
    ([idResetSub][0]? = some idResetSub) ∧
    (idResetSub.ownReset = some (fun p => p)) ∧
    ((reset_parameters [idResetSub])[0]? =
      some { ownReset := some (fun p => p), param := (fun p => p) idResetSub.param }) ∧
    ((reset_parameters [idResetSub]).map (fun m => m.param.shape) =
      [idResetSub].map (fun m => m.param.shape)) := by
  have hyp : ∀ m ∈ [idResetSub], ∀ f : Param → Param, m.ownReset = some f →
      ∀ q : Param, (f q).shape = q.shape := by
    intro m hm f hf q
    rcases List.mem_singleton.mp hm with rfl
    have : (fun p : Param => p) = f := by
      have := hf
      simp only [idResetSub, Option.some.injEq] at this
      exact this
    rw [← this]
  exact ⟨rfl, rfl,
    reset_parameters_default_behaviour.2.1 [idResetSub] 0 idResetSub (fun p => p) rfl rfl,
    (reset_parameters_default_behaviour.2.2.2 [idResetSub] hyp).1⟩

/-- C10: the reset of ConvKB writes 0.1 into the first two positions and
-0.1 into the third position of every convolution filter, zeroes both the
convolution bias and the final linear bias, preserves the linear weight
shape, and on a second call reproduces the identical convolution weights and
identical zero biases while the linear weight is drawn afresh from the
random stream. -/
theorem convKB_reset_fixed_pattern (p : ConvKBParams) (f1 f2 : Nat → Rat) :
    (convKBResetParameters f1 p).convWeight =
      List.replicate p.convWeight.length (1/10, 1/10, -1/10) ∧
    (convKBResetParameters f1 p).convBias = List.replicate p.convBias.length 0 ∧
    (convKBResetParameters f1 p).linearBias = List.replicate p.linearBias.length 0 ∧
    (convKBResetParameters f1 p).linearWeight.length = p.linearWeight.length ∧
    (convKBResetParameters f2 (convKBResetParameters f1 p)).convWeight =
      (convKBResetParameters f1 p).convWeight ∧
    (convKBResetParameters f2 (convKBResetParameters f1 p)).convBias =
      (convKBResetParameters f1 p).convBias ∧
    (convKBResetParameters f2 (convKBResetParameters f1 p)).linearBias =
      (convKBResetParameters f1 p).linearBias ∧
    (convKBResetParameters f2 (convKBResetParameters f1 p)).linearWeight =
      (convKBResetParameters f1 p).linearWeight.mapIdx (fun i _ => f2 i) := by
  refine ⟨?_, ?_, ?_, ?_, ?_, ?_, ?_, rfl⟩
  · simp [convKBResetParameters, List.map_const']
  · simp [convKBResetParameters, List.map_const']
  · simp [convKBResetParameters, List.map_const']
  · simp [convKBResetParameters]
  · simp [convKBResetParameters, List.map_map, Function.comp_def]
  · simp [convKBResetParameters, List.map_map, Function.comp_def]
  · simp [convKBResetParameters, List.map_map, Function.comp_def]
